import Mathlib

/-!
Shallow embedding of the `udatatable` Rust crate (`src/lib.rs`).

The crate provides `uDataTable<'a, T, N, M>`: a fixed-capacity, stack-resident
table of `N` rows of type `T` with `M` column-name headers, supporting
`new`, `append`, `get`, `erase`, `length`, `headers`, a `uDisplay` csv
rendering, a `uDebug` summary rendering, and an ASCII `plot`.

Modelling conventions:
* The Rust array `data: [T; N]` is a `List T`; a well-formed table has
  `data.length = N` (predicate `WF` below).
* Rust operations whose body indexes the array are wrapped in `Option`:
  `none` models a Rust panic from an out-of-bounds array access, so that
  panic-freedom is a provable statement rather than an assumption.
* `i32` values are `Int` with the explicit bounds `i32Min`/`i32Max`;
  an arithmetic operation whose exact result leaves the `i32` range is a
  panic in a debug build and is modelled as `none` where it matters
  (`count_digits`).
* `T: Default` is `[Inhabited T]`, with `default` as the default value.
-/

/-- Errors of the crate (`enum uDataTableError`). -/
inductive uDataTableError where
  | RowIndexOutOfBounds
  | CannotGrowTable
deriving DecidableEq, Repr

/-- The `uDataTable` structure: `headers: [&str; M]` (here a list whose length
plays the role of `M`), `data: [T; N]` (a list; well-formed states have
`data.length = N`), and `length: usize`. -/
structure uDataTable (T : Type) (N : Nat) where
  headers : List String
  data : List T
  length : Nat
deriving DecidableEq

namespace uDataTable

variable {T : Type} {N : Nat}

/-- `uDataTable::new`: stores the headers, fills `data` with `N` default
rows, sets `length = 0`. -/
def new (T : Type) (N : Nat) [Inhabited T] (headers : List String) :
    uDataTable T N :=
  { headers := headers
    data := List.replicate N (default : T)
    length := 0 }

/-- `uDataTable::get`: if `index < self.length` return `Ok(&self.data[index])`,
else `Err(RowIndexOutOfBounds)`. The array access `self.data[index]` panics
when `index` is outside the physical array; that panic is the `none` case. -/
def get (t : uDataTable T N) (index : Nat) :
    Option (Except uDataTableError T) :=
  if index < t.length then
    (t.data[index]?).map Except.ok
  else
    some (Except.error uDataTableError.RowIndexOutOfBounds)

/-- `uDataTable::append`: if `self.length < N`, write the row at
`self.data[self.length]`, increment `length`, and return
`Ok(&self.data[self.length - 1])`; otherwise return `Err(CannotGrowTable)`
without mutating. The store `self.data[self.length] = row` panics when
`self.length` is outside the physical array; that panic is the `none` case. -/
def append (t : uDataTable T N) (row : T) :
    Option (uDataTable T N × Except uDataTableError T) :=
  if t.length < N then
    if h : t.length < t.data.length then
      some ({ t with
                data := t.data.set t.length row
                length := t.length + 1 },
            Except.ok ((t.data.set t.length row).get
              ⟨t.length, by rw [List.length_set]; exact h⟩))
    else
      none
  else
    some (t, Except.error uDataTableError.CannotGrowTable)

/-- The body of `uDataTable::erase`'s loop `for i in 0..n { data[i] = default }`,
unrolled from the right: `eraseData n d` performs the first `n` iterations. -/
def eraseData [Inhabited T] : Nat → List T → List T
  | 0, d => d
  | n + 1, d => (eraseData n d).set n (default : T)

/-- `uDataTable::erase`: sets `length = 0` and runs
`for i in 0..N { self.data[i] = T::default(); }`. The loop's store panics as
soon as some `i < N` is outside the physical array, i.e. when
`data.length < N`; that panic is the `none` case. -/
def erase [Inhabited T] (t : uDataTable T N) : Option (uDataTable T N) :=
  if N ≤ t.data.length then
    some { t with
             length := 0
             data := eraseData N t.data }
  else
    none

/-- Well-formedness: the list standing for the Rust array `[T; N]` really has
`N` elements, and the crate's invariant `length ≤ N` holds. `new` establishes
it and every operation preserves it (proved below). -/
def WF (t : uDataTable T N) : Prop :=
  t.data.length = N ∧ t.length ≤ N

instance (t : uDataTable T N) : Decidable (WF t) := by
  unfold WF; infer_instance

/-- The header line written by `impl uDisplay for uDataTable`:
`for i in 0..M { "\x7b headers[i] \x7d" quoted; a comma iff i < M - 1 }`,
rendered recursively. -/
def headerPart : List String → String
  | [] => ""
  | [h] => "\"" ++ h ++ "\""
  | h :: h2 :: rest => "\"" ++ h ++ "\"" ++ "," ++ headerPart (h2 :: rest)

/-- `impl uDisplay for uDataTable::fmt`: the quoted header line, a newline,
then `for i in 0..self.length` one line `data[i]` rendered by the row type's
own `uDisplay` (`showRow`) plus a newline. The row loop indexes
`self.data[i]` for every `i < length`, which panics (`none`) if the logical
length exceeds the physical array; the in-range iterations are exactly
`data.take length`. -/
def uDisplay_fmt (showRow : T → String) (t : uDataTable T N) : Option String :=
  if t.length ≤ t.data.length then
    some (headerPart t.headers ++ "\n"
      ++ String.join ((t.data.take t.length).map (fun r => showRow r ++ "\n")))
  else
    none

/-- The header list as written by `impl uDebug for uDataTable`:
`headers[i]` with separator `", "` (with the surrounding quotes) iff
`i < M - 1`. -/
def uDebug_headers : List String → String
  | [] => ""
  | [h] => h
  | h :: h2 :: rest => h ++ "\", \"" ++ uDebug_headers (h2 :: rest)

/-- `impl uDebug for uDataTable::fmt`: the one-line summary
`uDataTable<["h1", "h2"], length: n>`. All header accesses are at
`i < M = headers.length`, so no panic is possible. -/
def uDebug_fmt (t : uDataTable T N) : String :=
  "uDataTable<[\"" ++ uDebug_headers t.headers ++ "\"], length: "
    ++ toString t.length ++ ">"

end uDataTable

/-- `i32::MAX`. -/
def i32Max : Int := 2147483647

/-- `i32::MIN`. -/
def i32Min : Int := -2147483648

namespace uDataTable

variable {T : Type} {N : Nat}

/-- One iteration of the range-scan loop at the top of `uDataTable::plot`:
`let value = value(row); if value < min \x7b min = value \x7d if value > max
\x7b max = value \x7d`, on the state `mm = (min, max)`. -/
def scanStep (value : T → Int) (mm : Int × Int) (row : T) : Int × Int :=
  let v := value row
  (if v < mm.1 then v else mm.1, if v > mm.2 then v else mm.2)

/-- The range scan at the top of `uDataTable::plot`: starting from the
sentinels `min = i32::MAX`, `max = i32::MIN`, visit `value(row)` for every
row of `self.data.iter()` — i.e. every one of the `N` physical slots, not
just the `length` logically valid ones — lowering `min` and raising `max`. -/
def rangeScan (value : T → Int) (data : List T) : Int × Int :=
  data.foldl (scanStep value) (i32Max, i32Min)

/-- The digit-counting loop of `uDataTable::count_digits` for a non-negative
`n`: `loop \x7b count += 1; n /= 10; if n == 0 break \x7d`. -/
def digitLoop (n : Nat) : Nat :=
  if _h : n < 10 then 1 else digitLoop (n / 10) + 1
decreasing_by
  exact Nat.div_lt_self (by omega) (by omega)

/-- `uDataTable::count_digits` on an `i32`: a negative value contributes one
character for the sign and is negated (`n = -n`). Negating `i32::MIN`
overflows `i32` — a panic in a debug build — modelled as `none`. -/
def count_digits (value : Int) : Option Nat :=
  if value < 0 then
    if value = i32Min then none
    else some (digitLoop (-value).toNat + 1)
  else
    some (digitLoop value.toNat)

/-- The axis-width computation of `uDataTable::plot`: `count_digits` of the
scanned `min` and of the scanned `max`, then the larger of the two. `none`
when either `count_digits` call panics. -/
def plotDigits (value : T → Int) (t : uDataTable T N) : Option Nat :=
  (count_digits (rangeScan value t.data).1).bind fun min_digits =>
    (count_digits (rangeScan value t.data).2).map fun max_digits =>
      if min_digits > max_digits then min_digits else max_digits

/-- `uDataTable::write_n_spaces`. -/
def write_n_spaces (n : Nat) : String :=
  String.mk (List.replicate n ' ')

/-- The left-label selection of one height level `h` inside
`uDataTable::plot`'s rendering loop, translated branch for branch from the
source's `if`/`else if` chain. `zeroH` stands for the level at which the
value `0` falls, `(display_height as f32 * (0 - min) as f32 / (max - min)
as f32) as i32` in the source; its `f32` computation is outside the integer
embedding, so it enters here as a parameter. -/
def plotLeftLabel (zeroH display_height h : Int)
    (digits min_digits max_digits : Nat) (min max : Int) : String :=
  if h = zeroH then
    write_n_spaces (digits - 1) ++ "0 |"
  else if h = display_height then
    write_n_spaces (digits - max_digits) ++ toString max ++ " |"
  else if h = 0 then
    write_n_spaces (digits - min_digits) ++ toString min ++ " |"
  else
    write_n_spaces digits ++ " |"

end uDataTable

/-- A caller-visible operation on the table, for stating properties of
arbitrary call sequences. -/
inductive TableOp (T : Type) where
  | appendRow (row : T)
  | eraseAll
  | getRow (i : Nat)

namespace uDataTable

variable {T : Type} {N : Nat}

/-- Run a sequence of `append`/`erase`/`get` calls. A failed `append` or
`get` (the `Err` results) leaves the table unchanged and the sequence
continues, exactly as a caller that checks the `Result` would; `none`
propagates a panic. -/
def runOps [Inhabited T] :
    uDataTable T N → List (TableOp T) → Option (uDataTable T N)
  | t, [] => some t
  | t, TableOp.appendRow r :: ops =>
    match t.append r with
    | some (t2, _) => runOps t2 ops
    | none => none
  | t, TableOp.eraseAll :: ops =>
    match t.erase with
    | some t2 => runOps t2 ops
    | none => none
  | t, TableOp.getRow i :: ops =>
    match t.get i with
    | some _ => runOps t ops
    | none => none

/-- Append each of `rows` in order, requiring every single `append` to
return `Ok` (anything else — a `CannotGrowTable` error or a panic — gives
`none`). -/
def appendAll : uDataTable T N → List T → Option (uDataTable T N)
  | t, [] => some t
  | t, r :: rs =>
    match t.append r with
    | some (t2, Except.ok _) => appendAll t2 rs
    | _ => none

end uDataTable

namespace uDataTable

variable {T : Type} {N : Nat}

theorem WF_new [Inhabited T] (hdrs : List String) : WF (new T N hdrs) := by
  constructor <;> simp [new]

theorem append_eq_of_lt (t : uDataTable T N) (row : T)
    (hdata : t.data.length = N) (h : t.length < N) :
    t.append row =
      some ({ t with
                data := t.data.set t.length row
                length := t.length + 1 },
            Except.ok row) := by
  have h2 : t.length < t.data.length := by omega
  simp [append, h, h2, List.get_eq_getElem, List.getElem_set_self]

theorem append_eq_of_full (t : uDataTable T N) (row : T)
    (h : ¬ t.length < N) :
    t.append row = some (t, Except.error uDataTableError.CannotGrowTable) := by
  simp [append, h]

theorem get_eq_of_ge (t : uDataTable T N) (i : Nat) (h : t.length ≤ i) :
    t.get i = some (Except.error uDataTableError.RowIndexOutOfBounds) := by
  simp [get, Nat.not_lt.mpr h]

theorem get_isSome_of_WF (t : uDataTable T N) (hwf : WF t) (i : Nat) :
    (t.get i).isSome := by
  unfold get
  split
  · have hi : i < t.data.length := by
      have := hwf.1; have := hwf.2; omega
    rw [List.getElem?_eq_getElem hi]
    rfl
  · rfl

theorem eraseData_length [Inhabited T] (n : Nat) (d : List T) :
    (eraseData n d).length = d.length := by
  induction n with
  | zero => rfl
  | succ n ih => simp [eraseData, List.length_set, ih]

theorem eraseData_getElem? [Inhabited T] (n : Nat) (d : List T) (j : Nat) :
    (eraseData n d)[j]? =
      if j < n ∧ j < d.length then some (default : T) else d[j]? := by
  induction n with
  | zero => simp [eraseData]
  | succ n ih =>
    show ((eraseData n d).set n default)[j]? = _
    by_cases hj : j = n
    · subst hj
      by_cases hlt : j < d.length
      · have hl : j < (eraseData j d).length := by
          rw [eraseData_length]; exact hlt
        rw [List.getElem?_set_self hl]
        simp [hlt]
      · have hle : (eraseData j d).length ≤ j := by
          rw [eraseData_length]; omega
        rw [List.set_eq_of_length_le hle, ih]
        simp [hlt]
    · rw [List.getElem?_set_ne (fun heq => hj heq.symm), ih]
      rcases Nat.lt_or_ge j n with h | h
      · simp [h, Nat.lt_succ_of_lt h]
      · have h1 : ¬ j < n := by omega
        have h2 : ¬ j < n + 1 := by omega
        simp [h1, h2]

end uDataTable

namespace uDataTable

variable {T : Type} {N : Nat}

theorem eraseData_self_eq_replicate [Inhabited T] (d : List T) :
    eraseData d.length d = List.replicate d.length (default : T) := by
  apply List.ext_getElem?
  intro j
  rw [eraseData_getElem?, List.getElem?_replicate]
  rcases Nat.lt_or_ge j d.length with h | h
  · simp [h]
  · have h1 : ¬ j < d.length := by omega
    simp [h1, List.getElem?_eq_none h]

theorem erase_eq_of_WF [Inhabited T] (t : uDataTable T N)
    (hdata : t.data.length = N) :
    t.erase = some { t with
                       length := 0
                       data := List.replicate N (default : T) } := by
  unfold erase
  rw [if_pos (le_of_eq hdata.symm)]
  have h2 := eraseData_self_eq_replicate t.data
  rw [hdata] at h2
  rw [h2]

/-- Filling lemma for `appendAll`: starting from a table whose data is a
written region `done` followed by default-filled slots, appending `rows`
succeeds whenever it fits in the capacity and extends the written region. -/
theorem appendAll_fill [Inhabited T] (hdrs : List String)
    (rows : List T) (done : List T)
    (hfit : done.length + rows.length ≤ N) :
    appendAll
      ({ headers := hdrs
         data := done ++ List.replicate (N - done.length) (default : T)
         length := done.length } : uDataTable T N) rows =
      some { headers := hdrs
             data := (done ++ rows)
               ++ List.replicate (N - (done.length + rows.length)) (default : T)
             length := done.length + rows.length } := by
  induction rows generalizing done with
  | nil =>
    simp [appendAll, List.append_nil]
  | cons r rs ih =>
    have hfit1 : done.length + rs.length + 1 ≤ N := by
      simp only [List.length_cons] at hfit; omega
    have hlt : done.length < N := by omega
    have hdata :
        (done ++ List.replicate (N - done.length) (default : T)).length = N := by
      simp; omega
    rw [appendAll, append_eq_of_lt _ _ hdata hlt]
    have hset :
        (done ++ List.replicate (N - done.length) (default : T)).set
            done.length r =
          (done ++ [r]) ++ List.replicate (N - (done.length + 1)) (default : T) := by
      have hrep : N - done.length = (N - (done.length + 1)) + 1 := by omega
      rw [List.set_append]
      have hnl : ¬ done.length < done.length := by omega
      rw [if_neg hnl]
      rw [hrep, List.replicate_succ]
      simp
    show appendAll _ rs = _
    rw [hset]
    have hIH := ih (done ++ [r]) (by simp; omega)
    simp only [List.length_append, List.length_singleton] at hIH
    rw [hIH]
    have hc : N - (done.length + 1 + rs.length)
        = N - (done.length + (r :: rs).length) := by
      simp only [List.length_cons]; omega
    have hl : done.length + 1 + rs.length = done.length + (r :: rs).length := by
      simp only [List.length_cons]; omega
    rw [hc, hl]
    simp [List.append_assoc]

/-- `appendAll` from a fresh table: every append succeeds and the resulting
data is the appended rows followed by the untouched default slots. -/
theorem appendAll_new [Inhabited T] (hdrs : List String) (rows : List T)
    (hfit : rows.length ≤ N) :
    appendAll (new T N hdrs) rows =
      some { headers := hdrs
             data := rows ++ List.replicate (N - rows.length) (default : T)
             length := rows.length } := by
  have := appendAll_fill (N := N) hdrs rows [] (by simpa using hfit)
  simpa [new] using this

end uDataTable

namespace uDataTable

variable {T : Type} {N : Nat}

theorem append_preserves (t : uDataTable T N) (row : T) (hwf : WF t) :
    ∃ t2 res, t.append row = some (t2, res) ∧ WF t2 ∧ t2.headers = t.headers := by
  by_cases h : t.length < N
  · refine ⟨_, _, append_eq_of_lt t row hwf.1 h, ?_, rfl⟩
    constructor
    · simp [List.length_set, hwf.1]
    · simp
      omega
  · exact ⟨t, _, append_eq_of_full t row h, hwf, rfl⟩

theorem erase_preserves [Inhabited T] (t : uDataTable T N) (hwf : WF t) :
    ∃ t2, t.erase = some t2 ∧ WF t2 ∧ t2.headers = t.headers := by
  refine ⟨_, erase_eq_of_WF t hwf.1, ?_, rfl⟩
  constructor <;> simp

theorem runOps_spec [Inhabited T] (ops : List (TableOp T)) (t : uDataTable T N)
    (hwf : WF t) :
    ∃ t2, runOps t ops = some t2 ∧ WF t2 ∧ t2.headers = t.headers := by
  induction ops generalizing t with
  | nil => exact ⟨t, rfl, hwf, rfl⟩
  | cons op ops ih =>
    cases op with
    | appendRow r =>
      obtain ⟨t2, res, heq, hwf2, hh2⟩ := append_preserves t r hwf
      obtain ⟨t3, heq3, hwf3, hh3⟩ := ih t2 hwf2
      refine ⟨t3, ?_, hwf3, hh3.trans hh2⟩
      simp only [runOps, heq]
      exact heq3
    | eraseAll =>
      obtain ⟨t2, heq, hwf2, hh2⟩ := erase_preserves t hwf
      obtain ⟨t3, heq3, hwf3, hh3⟩ := ih t2 hwf2
      refine ⟨t3, ?_, hwf3, hh3.trans hh2⟩
      simp only [runOps, heq]
      exact heq3
    | getRow i =>
      obtain ⟨v, hv⟩ := Option.isSome_iff_exists.mp (get_isSome_of_WF t hwf i)
      obtain ⟨t3, heq3, hwf3, hh3⟩ := ih t hwf
      refine ⟨t3, ?_, hwf3, hh3⟩
      simp only [runOps, hv]
      exact heq3

theorem uDisplay_fmt_isSome_of_WF (showRow : T → String) (t : uDataTable T N)
    (hwf : WF t) : (uDisplay_fmt showRow t).isSome := by
  unfold uDisplay_fmt
  rw [if_pos (by rw [hwf.1]; exact hwf.2)]
  rfl

end uDataTable

namespace uDataTable

variable {T : Type} {N : Nat}

theorem scanStep_fst_le (value : T → Int) (acc : Int × Int) (d : T) :
    (scanStep value acc d).1 ≤ acc.1 := by
  by_cases h : value d < acc.1 <;> simp [scanStep, h] <;> omega

theorem scanStep_fst_le_val (value : T → Int) (acc : Int × Int) (d : T) :
    (scanStep value acc d).1 ≤ value d := by
  by_cases h : value d < acc.1 <;> simp [scanStep, h] <;> omega

theorem scanStep_snd_ge (value : T → Int) (acc : Int × Int) (d : T) :
    acc.2 ≤ (scanStep value acc d).2 := by
  by_cases h : value d > acc.2 <;> simp [scanStep, h] <;> omega

theorem scanStep_snd_ge_val (value : T → Int) (acc : Int × Int) (d : T) :
    value d ≤ (scanStep value acc d).2 := by
  by_cases h : value d > acc.2 <;> simp [scanStep, h] <;> omega

theorem scanStep_fst_cases (value : T → Int) (acc : Int × Int) (d : T) :
    (scanStep value acc d).1 = acc.1 ∨ (scanStep value acc d).1 = value d := by
  by_cases h : value d < acc.1 <;> simp [scanStep, h]

theorem scanStep_snd_cases (value : T → Int) (acc : Int × Int) (d : T) :
    (scanStep value acc d).2 = acc.2 ∨ (scanStep value acc d).2 = value d := by
  by_cases h : value d > acc.2 <;> simp [scanStep, h]

theorem foldl_scanStep_mono (value : T → Int) (data : List T) :
    ∀ acc : Int × Int,
      (data.foldl (scanStep value) acc).1 ≤ acc.1 ∧
      acc.2 ≤ (data.foldl (scanStep value) acc).2 := by
  induction data with
  | nil => exact fun acc => ⟨le_refl _, le_refl _⟩
  | cons d ds ih =>
    intro acc
    rw [List.foldl_cons]
    exact ⟨le_trans (ih _).1 (scanStep_fst_le value acc d),
           le_trans (scanStep_snd_ge value acc d) (ih _).2⟩

theorem foldl_scanStep_bounds (value : T → Int) (data : List T) :
    ∀ acc : Int × Int, ∀ x ∈ data,
      (data.foldl (scanStep value) acc).1 ≤ value x ∧
      value x ≤ (data.foldl (scanStep value) acc).2 := by
  induction data with
  | nil => intro acc x hx; cases hx
  | cons d ds ih =>
    intro acc x hx
    rw [List.foldl_cons]
    rcases List.mem_cons.mp hx with rfl | hx1
    · constructor
      · exact le_trans (foldl_scanStep_mono value ds (scanStep value acc x)).1
          (scanStep_fst_le_val value acc x)
      · exact le_trans (scanStep_snd_ge_val value acc x)
          (foldl_scanStep_mono value ds (scanStep value acc x)).2
    · exact ih _ x hx1

theorem foldl_scanStep_attained_fst (value : T → Int) (data : List T) :
    ∀ acc : Int × Int,
      (data.foldl (scanStep value) acc).1 = acc.1 ∨
      ∃ x ∈ data, value x = (data.foldl (scanStep value) acc).1 := by
  induction data with
  | nil => exact fun acc => Or.inl rfl
  | cons d ds ih =>
    intro acc
    rw [List.foldl_cons]
    rcases ih (scanStep value acc d) with h | ⟨x, hx, hv⟩
    · rcases scanStep_fst_cases value acc d with h2 | h2
      · exact Or.inl (by rw [h, h2])
      · exact Or.inr ⟨d, List.mem_cons_self d ds, by rw [h, h2]⟩
    · exact Or.inr ⟨x, List.mem_cons_of_mem d hx, hv⟩

theorem foldl_scanStep_attained_snd (value : T → Int) (data : List T) :
    ∀ acc : Int × Int,
      (data.foldl (scanStep value) acc).2 = acc.2 ∨
      ∃ x ∈ data, value x = (data.foldl (scanStep value) acc).2 := by
  induction data with
  | nil => exact fun acc => Or.inl rfl
  | cons d ds ih =>
    intro acc
    rw [List.foldl_cons]
    rcases ih (scanStep value acc d) with h | ⟨x, hx, hv⟩
    · rcases scanStep_snd_cases value acc d with h2 | h2
      · exact Or.inl (by rw [h, h2])
      · exact Or.inr ⟨d, List.mem_cons_self d ds, by rw [h, h2]⟩
    · exact Or.inr ⟨x, List.mem_cons_of_mem d hx, hv⟩

end uDataTable

namespace uDataTable

variable {T : Type} {N : Nat}

theorem foldl_scanStep_replicate_fix (value : T → Int) (d : T) (k : Nat) :
    List.foldl (scanStep value) (value d, value d) (List.replicate k d) =
      (value d, value d) := by
  induction k with
  | zero => rfl
  | succ k ih =>
    rw [List.replicate_succ, List.foldl_cons]
    have hstep : scanStep value (value d, value d) d = (value d, value d) := by
      simp [scanStep]
    rw [hstep]
    exact ih

theorem rangeScan_replicate (value : T → Int) (d : T) (C : Nat)
    (h1 : i32Min ≤ value d) (h2 : value d ≤ i32Max) :
    rangeScan value (List.replicate C d) =
      if C = 0 then (i32Max, i32Min) else (value d, value d) := by
  cases C with
  | zero => rfl
  | succ C =>
    rw [if_neg (Nat.succ_ne_zero C), rangeScan, List.replicate_succ,
      List.foldl_cons]
    have hstep : scanStep value (i32Max, i32Min) d = (value d, value d) := by
      simp only [i32Max, i32Min] at h1 h2
      simp only [scanStep, i32Max, i32Min, Prod.mk.injEq]
      constructor
      · split
        · rfl
        · omega
      · split
        · rfl
        · omega
    rw [hstep]
    exact foldl_scanStep_replicate_fix value d C

end uDataTable

/-- C1: for every capacity `C`, starting from a newly constructed table, `C`
successive `append` calls each succeed (`appendAll` returns `some`) and
afterwards `length = C`; one further `append` fails with `CannotGrowTable`,
performs no mutation (the table returned alongside the error is `tC`
itself, so `length` stays `C`), and every previously appended row is still
read back unchanged by `get`. -/
theorem C1_fill_to_capacity {T : Type} [Inhabited T] (C : Nat)
    (hdrs : List String) (rows : List T) (hlen : rows.length = C) (extra : T) :
    ∃ tC : uDataTable T C,
      uDataTable.appendAll (uDataTable.new T C hdrs) rows = some tC ∧
      tC.length = C ∧
      tC.append extra =
        some (tC, Except.error uDataTableError.CannotGrowTable) ∧
      (∀ i, i < C → tC.get i = (rows[i]?).map Except.ok) := by
  subst hlen
  refine ⟨_, uDataTable.appendAll_new hdrs rows le_rfl, rfl, ?_, ?_⟩
  · exact uDataTable.append_eq_of_full _ extra (Nat.lt_irrefl _)
  · intro i hi
    show uDataTable.get _ i = _
    simp [uDataTable.get, hi, List.getElem?_append]

/-- Witness for C1 at `C = 2`, rows `[10, 20]`, one extra append of `99`. -/
theorem C1_witness :
    ∃ tC : uDataTable Int 2,
      uDataTable.appendAll (uDataTable.new Int 2 ["a"]) [10, 20] = some tC ∧
      tC.length = 2 ∧
      tC.append 99 =
        some (tC, Except.error uDataTableError.CannotGrowTable) ∧
      (∀ i, i < 2 → tC.get i = (([10, 20] : List Int)[i]?).map Except.ok) :=
  C1_fill_to_capacity 2 ["a"] [10, 20] rfl 99

/-- C2: on a table holding `rows` (appended since construction), `get i`
returns `Ok` with the `i`-th appended row for every `i < length`, and fails
with `RowIndexOutOfBounds` for every `i ≥ length` — including the indices
`length ≤ i < Capacity` that are physically allocated. -/
theorem C2_get_semantics {T : Type} [Inhabited T] (C : Nat)
    (hdrs : List String) (rows : List T) (hfit : rows.length ≤ C) :
    ∃ t2 : uDataTable T C,
      uDataTable.appendAll (uDataTable.new T C hdrs) rows = some t2 ∧
      (∀ i, i < rows.length → t2.get i = (rows[i]?).map Except.ok) ∧
      (∀ i, rows.length ≤ i →
        t2.get i = some (Except.error uDataTableError.RowIndexOutOfBounds)) := by
  refine ⟨_, uDataTable.appendAll_new hdrs rows hfit, ?_, ?_⟩
  · intro i hi
    show uDataTable.get _ i = _
    simp [uDataTable.get, hi, List.getElem?_append]
  · intro i hi
    exact uDataTable.get_eq_of_ge _ i hi

/-- Witness for C2: capacity 3, two appended rows; `get 0` is `Ok 7` and
`get 2` — an index below the capacity but at/above the length — fails. -/
theorem C2_witness :
    ∃ t2 : uDataTable Int 3,
      uDataTable.appendAll (uDataTable.new Int 3 ["a"]) [7, 8] = some t2 ∧
      t2.get 0 = some (Except.ok 7) ∧
      t2.get 2 = some (Except.error uDataTableError.RowIndexOutOfBounds) := by
  obtain ⟨t2, h1, h2, h3⟩ :=
    C2_get_semantics 3 ["a"] ([7, 8] : List Int) (by decide)
  exact ⟨t2, h1, by simpa using h2 0 (by decide), h3 2 (by decide)⟩

/-- C3: `erase` sets `length` to 0 and resets every physical slot
`0..Capacity` to the default row value; it is idempotent (the second `erase`
returns exactly the same state), and afterwards `get 0` fails with
`RowIndexOutOfBounds` whatever the prior contents were. -/
theorem C3_erase_resets {T : Type} [Inhabited T] {N : Nat}
    (t : uDataTable T N) (hwf : uDataTable.WF t) :
    ∃ te : uDataTable T N,
      t.erase = some te ∧
      te.length = 0 ∧
      te.data = List.replicate N (default : T) ∧
      te.erase = some te ∧
      te.get 0 = some (Except.error uDataTableError.RowIndexOutOfBounds) := by
  refine ⟨_, uDataTable.erase_eq_of_WF t hwf.1, rfl, rfl, ?_, ?_⟩
  · rw [uDataTable.erase_eq_of_WF _ (by simp)]
  · exact uDataTable.get_eq_of_ge _ 0 (Nat.le_refl 0)

/-- Witness for C3 on the concrete table `⟨["a"], [5], 1⟩` of capacity 1. -/
theorem C3_witness :
    ∃ te : uDataTable Int 1,
      ({ headers := ["a"], data := [5], length := 1 } :
          uDataTable Int 1).erase = some te ∧
      te.length = 0 ∧
      te.data = List.replicate 1 (default : Int) ∧
      te.erase = some te ∧
      te.get 0 = some (Except.error uDataTableError.RowIndexOutOfBounds) :=
  C3_erase_resets
    ({ headers := ["a"], data := [5], length := 1 } : uDataTable Int 1)
    (by decide)

/-- C4: headers are immutable for the table's lifetime — after any sequence
of `append`, `erase` and `get` calls starting from construction, `headers`
is exactly the sequence passed to `new`, in the same order. -/
theorem C4_headers_immutable {T : Type} [Inhabited T] (C : Nat)
    (hdrs : List String) (ops : List (TableOp T)) (t2 : uDataTable T C)
    (hrun : uDataTable.runOps (uDataTable.new T C hdrs) ops = some t2) :
    t2.headers = hdrs := by
  obtain ⟨t3, h3, _, hh⟩ :=
    uDataTable.runOps_spec ops (uDataTable.new T C hdrs)
      (uDataTable.WF_new hdrs)
  have ht : t3 = t2 := Option.some.inj (h3.symm.trans hrun)
  rw [← ht]
  exact hh

/-- Witness for C4: an append, an erase and a get on a capacity-2 table. -/
theorem C4_witness :
    ∃ t2 : uDataTable Int 2,
      uDataTable.runOps (uDataTable.new Int 2 ["a", "b"])
          [TableOp.appendRow 5, TableOp.eraseAll, TableOp.getRow 1] =
        some t2 ∧
      t2.headers = ["a", "b"] := by
  refine ⟨{ headers := ["a", "b"], data := [0, 0], length := 0 }, rfl, ?_⟩
  exact C4_headers_immutable 2 ["a", "b"]
    [TableOp.appendRow 5, TableOp.eraseAll, TableOp.getRow 1] _ rfl

/-- C5: the `uDisplay` rendering of a table holding `rows` is exactly the
quoted, comma-separated header line, a line break, then one csv line per
logically valid row in insertion order, each rendered by the row type's own
`uDisplay` and terminated by a line break. -/
theorem C5_display_rendering {T : Type} [Inhabited T] (C : Nat)
    (hdrs : List String) (rows : List T) (showRow : T → String)
    (hfit : rows.length ≤ C) :
    ∃ t2 : uDataTable T C,
      uDataTable.appendAll (uDataTable.new T C hdrs) rows = some t2 ∧
      uDataTable.uDisplay_fmt showRow t2 =
        some (uDataTable.headerPart hdrs ++ "\n"
          ++ String.join (rows.map (fun r => showRow r ++ "\n"))) := by
  refine ⟨_, uDataTable.appendAll_new hdrs rows hfit, ?_⟩
  have htake :
      (rows ++ List.replicate (C - rows.length) (default : T)).take rows.length
        = rows := List.take_left rows _
  simp [uDataTable.uDisplay_fmt, htake]

/-- Witness for C5: headers `["a","b","c"]`, rows `(0,0,0), (1,2,3), (2,4,6)`
rendered as in the crate's doctest. -/
theorem C5_witness :
    ∃ t2 : uDataTable (Nat × Nat × Nat) 3,
      uDataTable.appendAll
          (uDataTable.new (Nat × Nat × Nat) 3 ["a", "b", "c"])
          [(0, 0, 0), (1, 2, 3), (2, 4, 6)] = some t2 ∧
      uDataTable.uDisplay_fmt
          (fun r => toString r.1 ++ ", " ++ toString r.2.1 ++ ", "
            ++ toString r.2.2) t2 =
        some "\"a\",\"b\",\"c\"\n0, 0, 0\n1, 2, 3\n2, 4, 6\n" := by
  obtain ⟨t2, h1, h2⟩ :=
    C5_display_rendering 3 ["a", "b", "c"] [(0, 0, 0), (1, 2, 3), (2, 4, 6)]
      (fun r => toString r.1 ++ ", " ++ toString r.2.1 ++ ", "
        ++ toString r.2.2)
      (by decide)
  refine ⟨t2, h1, ?_⟩
  rw [h2]
  rfl

/-- C6: the plot range scan visits every physically allocated slot of
`data` (all `Capacity` of them, not only the `length` valid rows), and the
scanned pair is exactly the minimum and maximum of the projection over that
full region: both are lower/upper bounds for every slot's projection and
both are attained by some slot. -/
theorem C6_range_scan_full {T : Type} {N : Nat} (t : uDataTable T N)
    (value : T → Int) (hne : t.data ≠ [])
    (hrange : ∀ x ∈ t.data, i32Min ≤ value x ∧ value x ≤ i32Max) :
    (∀ x ∈ t.data,
      (uDataTable.rangeScan value t.data).1 ≤ value x ∧
      value x ≤ (uDataTable.rangeScan value t.data).2) ∧
    (∃ x ∈ t.data, value x = (uDataTable.rangeScan value t.data).1) ∧
    (∃ x ∈ t.data, value x = (uDataTable.rangeScan value t.data).2) := by
  refine ⟨fun x hx => uDataTable.foldl_scanStep_bounds value t.data _ x hx,
    ?_, ?_⟩
  · rcases uDataTable.foldl_scanStep_attained_fst value t.data
        (i32Max, i32Min) with h | h
    · obtain ⟨y, hy⟩ := List.exists_mem_of_ne_nil t.data hne
      have hb : (uDataTable.rangeScan value t.data).1 ≤ value y :=
        (uDataTable.foldl_scanStep_bounds value t.data (i32Max, i32Min) y hy).1
      have hr := (hrange y hy).2
      have h1 : (uDataTable.rangeScan value t.data).1 = i32Max := h
      exact ⟨y, hy, by omega⟩
    · exact h
  · rcases uDataTable.foldl_scanStep_attained_snd value t.data
        (i32Max, i32Min) with h | h
    · obtain ⟨y, hy⟩ := List.exists_mem_of_ne_nil t.data hne
      have hb : value y ≤ (uDataTable.rangeScan value t.data).2 :=
        (uDataTable.foldl_scanStep_bounds value t.data (i32Max, i32Min) y hy).2
      have hr := (hrange y hy).1
      have h1 : (uDataTable.rangeScan value t.data).2 = i32Min := h
      exact ⟨y, hy, by omega⟩
    · exact h

/-- Witness for C6 on `⟨["a"], [5, 0], 1⟩`: the scanned minimum is attained
by the default slot at index 1 — a slot beyond the logical length. -/
theorem C6_witness :
    ∃ x ∈ ({ headers := ["a"], data := [5, 0], length := 1 } :
        uDataTable Int 2).data,
      x = (uDataTable.rangeScan (fun v : Int => v)
        ({ headers := ["a"], data := [5, 0], length := 1 } :
          uDataTable Int 2).data).1 := by
  have h := C6_range_scan_full
    ({ headers := ["a"], data := [5, 0], length := 1 } : uDataTable Int 2)
    (fun v => v) (by decide) (by decide)
  exact h.2.1

/-- C7 counterexample: a never-appended table of capacity 1 over `Int`
(default row 0), projected by the identity. The range scan visits the
default slot, so the scanned pair is `(0, 0)` — the sentinels
`(i32::MAX, i32::MIN)` are NOT retained, contrary to the claim. -/
theorem C7_counterexample :
    uDataTable.rangeScan (fun v : Int => v)
        (uDataTable.new Int 1 ["a"]).data = (0, 0) ∧
    ((0 : Int), (0 : Int)) ≠ (i32Max, i32Min) := by
  constructor
  · decide
  · decide

/-- C7 (amended): for a never-appended table the scan still visits all
`Capacity` physical slots, each holding the default row. The sentinels
`(i32::MAX, i32::MIN)` are retained only when `Capacity = 0`; for
`Capacity > 0` the scanned min and max are both `value(default)`. -/
theorem C7_never_appended_scan {T : Type} [Inhabited T] (value : T → Int)
    (C : Nat) (hdrs : List String)
    (h1 : i32Min ≤ value (default : T)) (h2 : value (default : T) ≤ i32Max) :
    uDataTable.rangeScan value (uDataTable.new T C hdrs).data =
      if C = 0 then (i32Max, i32Min)
      else (value (default : T), value (default : T)) :=
  uDataTable.rangeScan_replicate value (default : T) C h1 h2

/-- Witness for C7 (amended) at capacity 2 over `Int` with the identity
projection. -/
theorem C7_witness :
    uDataTable.rangeScan (fun v : Int => v)
        (uDataTable.new Int 2 ["a"]).data =
      if 2 = 0 then (i32Max, i32Min)
      else ((default : Int), (default : Int)) :=
  C7_never_appended_scan (fun v : Int => v) 2 ["a"] (by decide) (by decide)

/-- C8 counterexample: take `min = -100`, `max = -1`. The range `99` exceeds
the height bound, so `display_height = 23`, and the computed 0-height
`(23 * 100 / 99) as i32 = 23` coincides with `display_height`;
`count_digits` gives `min_digits = 4`, `max_digits = 2`, `digits = 4`. At
the top level `h = 23` the source renders the `0` label `"   0 |"` — not
the max label `"  -1 |"` that the claim says takes precedence. -/
theorem C8_counterexample :
    uDataTable.plotLeftLabel 23 23 23 4 4 2 (-100) (-1) = "   0 |" ∧
    uDataTable.plotLeftLabel 23 23 23 4 4 2 (-100) (-1) ≠
      uDataTable.write_n_spaces (4 - 2) ++ toString (-1 : Int) ++ " |" := by
  constructor
  · rfl
  · decide

/-- C8 (amended): the source's `if`/`else if` chain tests the 0-label
condition first, so whenever the height level equals the computed 0-height
the literal `0` label takes precedence — including when that 0-height
coincides with `display_height` or with `0`; the max label is rendered only
at `h = display_height` when the 0-test did not fire, and the min label only
at `h = 0` when neither earlier test fired. -/
theorem C8_zero_label_first (zeroH display_height h : Int)
    (digits min_digits max_digits : Nat) (min max : Int) :
    (h = zeroH →
      uDataTable.plotLeftLabel zeroH display_height h digits min_digits
          max_digits min max =
        uDataTable.write_n_spaces (digits - 1) ++ "0 |") ∧
    (h ≠ zeroH → h = display_height →
      uDataTable.plotLeftLabel zeroH display_height h digits min_digits
          max_digits min max =
        uDataTable.write_n_spaces (digits - max_digits)
          ++ toString max ++ " |") ∧
    (h ≠ zeroH → h ≠ display_height → h = 0 →
      uDataTable.plotLeftLabel zeroH display_height h digits min_digits
          max_digits min max =
        uDataTable.write_n_spaces (digits - min_digits)
          ++ toString min ++ " |") := by
  refine ⟨?_, ?_, ?_⟩
  · intro h1
    simp [uDataTable.plotLeftLabel, h1]
  · intro h1 h2
    subst h2
    simp [uDataTable.plotLeftLabel, h1]
  · intro h1 h2 h3
    subst h3
    simp [uDataTable.plotLeftLabel, h1, h2]

/-- Witness for C8 (amended): one concrete instance per branch of the
label chain. -/
theorem C8_witness :
    uDataTable.plotLeftLabel 5 5 5 2 1 1 (-3) 9 =
      uDataTable.write_n_spaces (2 - 1) ++ "0 |" ∧
    uDataTable.plotLeftLabel 0 4 4 2 1 1 (-3) 9 =
      uDataTable.write_n_spaces (2 - 1) ++ toString (9 : Int) ++ " |" ∧
    uDataTable.plotLeftLabel 2 4 0 2 1 1 (-3) 9 =
      uDataTable.write_n_spaces (2 - 1) ++ toString (-3 : Int) ++ " |" :=
  ⟨(C8_zero_label_first 5 5 5 2 1 1 (-3) 9).1 rfl,
   (C8_zero_label_first 0 4 4 2 1 1 (-3) 9).2.1 (by decide) rfl,
   (C8_zero_label_first 2 4 0 2 1 1 (-3) 9).2.2 (by decide) (by decide) rfl⟩

/-- C9 counterexample: a capacity-1 table appended with the single row
`i32::MIN`, plotted with the identity projection — a legal call under the
crate's documented use (`N > 0`, `M > 0`, any `fn(&T) -> i32`). The range
scan yields `min = i32::MIN`, and `count_digits(i32::MIN)` executes
`n = -n`, which overflows `i32`: a panic in a debug build, so the axis-width
computation of `plot` does not return normally. -/
theorem C9_counterexample :
    (uDataTable.appendAll (uDataTable.new Int 1 ["a"]) [i32Min]).map
      (uDataTable.plotDigits (fun v : Int => v)) = some none := by
  decide

/-- C9 (amended): every container operation is panic-free — starting from
construction, any sequence of `append`/`erase`/`get` calls returns normally
(never hits an unchecked array access), and on the resulting state `get`,
`append`, `erase` and the `uDisplay` rendering all return normally for every
caller-supplied input. (The `plot` axis-width arithmetic is the exception
recorded by the counterexample.) -/
theorem C9_container_no_panic {T : Type} [Inhabited T] (C : Nat)
    (hdrs : List String) (ops : List (TableOp T)) (showRow : T → String) :
    ∃ t2 : uDataTable T C,
      uDataTable.runOps (uDataTable.new T C hdrs) ops = some t2 ∧
      (∀ i, (t2.get i).isSome) ∧
      (∀ row, (t2.append row).isSome) ∧
      t2.erase.isSome ∧
      (uDataTable.uDisplay_fmt showRow t2).isSome := by
  obtain ⟨t2, hrun, hwf, _⟩ :=
    uDataTable.runOps_spec ops (uDataTable.new T C hdrs)
      (uDataTable.WF_new hdrs)
  refine ⟨t2, hrun, fun i => uDataTable.get_isSome_of_WF t2 hwf i,
    ?_, ?_, ?_⟩
  · intro row
    obtain ⟨t3, res, heq, _, _⟩ := uDataTable.append_preserves t2 row hwf
    rw [heq]
    rfl
  · obtain ⟨t3, heq, _, _⟩ := uDataTable.erase_preserves t2 hwf
    rw [heq]
    rfl
  · exact uDataTable.uDisplay_fmt_isSome_of_WF showRow t2 hwf
